import Mathlib

/-!
# Verification of the marksheet-processing pipeline

A shallow embedding of the three components of `app.py`:

* `process_marks` — the Mark Splitter, parsing a single mark cell into
  `(internal, external, total)`;
* `process_excel_file` — the Table Enricher, synthesizing headers and
  inserting the derived Internal/External/Total columns per subject block;
* `create_department_batches` — the Department Partitioner, grouping data
  rows by `(department, batch-year)` keys sliced from the Register No.

Python cell values are modelled by the inductive type `Value`; Python
exceptions that escape a function are modelled with `Except PyExn`.
Machine-level floats only matter here through `int(·)` truncation and the
NaN special case, so finite floats are carried as exact rationals and NaN
as a dedicated constructor.
-/

/-- A Python value as it can appear in a spreadsheet cell or be passed to
`process_marks`: `None`, a bool, an int, a finite float (carried as an exact
rational), the float NaN, or a string. -/
inductive Value where
  | pyNone : Value
  | pyBool : Bool → Value
  | pyInt : Int → Value
  | pyFloat : Rat → Value
  | pyNaN : Value
  | pyStr : String → Value
deriving DecidableEq, Repr

/-- The Python exceptions relevant to this program. -/
inductive PyExn where
  | valueError : PyExn
  | typeError : PyExn
deriving DecidableEq, Repr

/-- The result triple of the Mark Splitter: `(internal, external, total)`,
each possibly `None`. -/
abbrev MarksResult := Option Int × Option Int × Option Int

/-- Python truthiness (`not marks` at app.py line 19): `None`, `False`,
`0`, `0.0` and `""` are falsy; NaN is truthy. -/
def Value.isFalsy : Value → Bool
  | .pyNone => true
  | .pyBool b => !b
  | .pyInt n => n == 0
  | .pyFloat q => q == 0
  | .pyNaN => false
  | .pyStr s => s == ""

/-- `int(q)` on a finite Python float truncates toward zero. -/
def ratTrunc (q : Rat) : Int := Int.tdiv q.num (q.den : Int)

/-- Python `str.strip()`: remove leading and trailing whitespace
(modelled at the ASCII whitespace handled by `Char.isWhitespace`). -/
def pyStrip (cs : List Char) : List Char :=
  ((cs.dropWhile Char.isWhitespace).reverse.dropWhile Char.isWhitespace).reverse

/-- Python `str.split(sep)` for a one-character separator: split at every
occurrence, keeping empty parts (`"12+".split("+") == ["12", ""]`). -/
def splitOnChar (sep : Char) : List Char → List (List Char)
  | [] => [[]]
  | c :: rest =>
    if c = sep then [] :: splitOnChar sep rest
    else
      match splitOnChar sep rest with
      | [] => [[c]]
      | p :: ps => (c :: p) :: ps

/-- Python `s.lstrip('0') or '0'` (app.py lines 31-32, 35): strip leading
`'0'` characters, and fall back to `"0"` when the result is empty. -/
def lstrip0or0 (cs : List Char) : List Char :=
  let t := cs.dropWhile (fun c => c == '0')
  if t.isEmpty then ['0'] else t

/-- Digit tail of Python `int(str)` parsing: after the first digit,
further digits accumulate; a single `'_'` is allowed between digits. -/
def digitsTail : List Char → Nat → Option Nat
  | [], acc => some acc
  | c :: rest, acc =>
    if c = '_' then
      match rest with
      | c2 :: rest2 =>
        if c2.isDigit then digitsTail rest2 (acc * 10 + (c2.toNat - 48)) else none
      | [] => none
    else if c.isDigit then digitsTail rest (acc * 10 + (c.toNat - 48)) else none

/-- First-digit entry point of Python `int(str)` digit parsing. -/
def digitsStart : List Char → Option Nat
  | [] => none
  | c :: rest => if c.isDigit then digitsTail rest (c.toNat - 48) else none

/-- Python `int(s)` on a base-10 string: surrounding whitespace is ignored,
one optional sign, then digits (with `'_'` allowed only between digits);
`none` models the `ValueError` raised on anything else. -/
def pyIntOfChars (cs : List Char) : Option Int :=
  match pyStrip cs with
  | [] => none
  | c :: rest =>
    if c = '+' then (digitsStart rest).map (fun n => (n : Int))
    else if c = '-' then (digitsStart rest).map (fun n => -(n : Int))
    else (digitsStart (c :: rest)).map (fun n => (n : Int))

/-- Numeric value of a digit string (list form). -/
def digitsValL (cs : List Char) : Nat :=
  cs.foldl (fun acc c => acc * 10 + (c.toNat - 48)) 0

/-- Numeric value of a digit string. -/
def digitsVal (s : String) : Nat := digitsValL s.data

/-- The string branch of `process_marks` (app.py lines 26-39): strip the
string; if it contains `'+'` split on every `'+'` and require exactly two
parts, parse each part after `lstrip('0') or '0'`; otherwise parse the
whole string the same way.  Any `ValueError` from the unpacking or from
`int` is caught by the `except` clause and becomes the all-`None`
sentinel. -/
def parseMarkString (s : String) : MarksResult :=
  let cs := pyStrip s.data
  if '+' ∈ cs then
    match splitOnChar '+' cs with
    | [a, b] =>
      match pyIntOfChars (lstrip0or0 a), pyIntOfChars (lstrip0or0 b) with
      | some i, some e => (some i, some e, some (i + e))
      | _, _ => (none, none, none)
    | _ => (none, none, none)
  else
    match pyIntOfChars (lstrip0or0 cs) with
    | some t => (none, none, some t)
    | none => (none, none, none)

/-- app.py lines 8-39, `process_marks`: falsy input gives the sentinel;
an `int`/`float` (including `bool`) is truncated to `int` — where
`int(float('nan'))` raises `ValueError` *outside* the `try` block — and
otherwise the string is parsed by `parseMarkString`. -/
def process_marks (marks : Value) : Except PyExn MarksResult :=
  if marks.isFalsy then .ok (none, none, none)
  else
    match marks with
    | .pyNone => .ok (none, none, none)
    | .pyBool b => .ok (none, none, some (if b then 1 else 0))
    | .pyInt n => .ok (none, none, some n)
    | .pyFloat q => .ok (none, none, some (ratTrunc q))
    | .pyNaN => .error .valueError
    | .pyStr s => .ok (parseMarkString s)

/-! ## Table Enricher (`process_excel_file`, app.py lines 41-105)

Tables are lists of rows of `Value`s; openpyxl's 1-based row/column
addressing is kept in the cell helpers.  The pandas `to_excel` /
`load_workbook` round trip through the temporary file is modelled by
`excelRoundtrip` (a float NaN cell is written as a blank and read back as
`None`; every other value survives).  The cosmetic column-width pass
(lines 100-103) reads cells only and is omitted. -/

/-- openpyxl `sheet.cell(row, column).value` read access inside one row:
1-based column, missing cells read as `None`. -/
def getCell1 (row : List Value) (p : Nat) : Value :=
  row.getD (p - 1) Value.pyNone

/-- openpyxl cell write at 1-based column `p`: the sheet grows with empty
cells if `p` is beyond the current width. -/
def setCell1 (row : List Value) (p : Nat) (v : Value) : List Value :=
  (row ++ List.replicate (p - row.length) Value.pyNone).set (p - 1) v

/-- openpyxl `sheet.insert_cols(p, 3)` restricted to one row: three empty
cells are inserted before 1-based column `p`. -/
def insertThree (row : List Value) (p : Nat) : List Value :=
  row.take (p - 1) ++ [Value.pyNone, Value.pyNone, Value.pyNone] ++ row.drop (p - 1)

/-- The three consecutive cell writes at columns `p`, `p+1`, `p+2`
(the `enumerate` loops at app.py lines 83-85 and 97-98). -/
def setThree (row : List Value) (p : Nat) (a b c : Value) : List Value :=
  setCell1 (setCell1 (setCell1 row p a) (p + 1) b) (p + 2) c

/-- `internal if internal is not None else ''` (app.py lines 92-96):
a missing component renders as the empty string. -/
def omv : Option Int → Value
  | some n => .pyInt n
  | none => .pyStr ""

/-- The pandas `to_excel` / openpyxl `load_workbook` round trip on one
cell: NaN is written as a blank cell and read back as `None`. -/
def excelRoundtrip : Value → Value
  | .pyNaN => .pyNone
  | v => v

/-- The three fixed leading headers (app.py line 56). -/
def fixedHeaders : List String := ["Register No", "Name", "College ID"]

/-- One raw subject block's headers (app.py lines 57-59). -/
def subjectHeaders (i : Nat) : List String :=
  [s!"Subject Code {i}", s!"Subject Name {i}", s!"Marks {i}", s!"Result {i}"]

/-- `num_subjects = (total_columns - 3) // 4` (app.py line 53); Python
`//` is floor division, so fewer than 3 columns give `-1`, not `0`. -/
def numSubjectsOf (totalColumns : Nat) : Int :=
  Int.fdiv ((totalColumns : Int) - 3) 4

/-- Header synthesis (app.py lines 56-64): the three fixed headers, one
4-header block per subject, then `Unnamed: j` placeholders for any extra
columns.  `range(1, num_subjects + 1)` is empty when `num_subjects ≤ 0`,
which `Int.toNat` captures. -/
def synthHeaders (totalColumns : Nat) : List String :=
  let ns := (numSubjectsOf totalColumns).toNat
  let hs := fixedHeaders ++ (List.range ns).flatMap (fun j => subjectHeaders (j + 1))
  let extra : Int := (totalColumns : Int) - hs.length
  if 0 < extra then hs ++ (List.range extra.toNat).map (fun j => s!"Unnamed: {j}")
  else hs

/-- Sequential per-row processing that stops at the first uncaught
exception, as a Python `for` loop over rows does. -/
def mapExcept (f : α → Except PyExn β) : List α → Except PyExn (List β)
  | [] => .ok []
  | a :: as =>
    match f a with
    | .ok b =>
      match mapExcept f as with
      | .ok bs => .ok (b :: bs)
      | .error e => .error e
    | .error e => .error e

/-- Sequential folding that stops at the first uncaught exception, as the
Python `for subject_num in range(num_subjects)` loop does. -/
def foldExcept (f : σ → α → Except PyExn σ) (init : σ) : List α → Except PyExn σ
  | [] => .ok init
  | a :: as =>
    match f init a with
    | .ok s => foldExcept f s as
    | .error e => .error e

/-- One data row of the per-subject loop (app.py lines 88-98): read the
(already shifted-insensitive) Marks cell, run the Mark Splitter, and write
the three derived cells; `process_marks` may raise. -/
def processRow (marksCol insertCol : Nat) (row : List Value) : Except PyExn (List Value) :=
  match process_marks (getCell1 row marksCol) with
  | .ok r => .ok (setThree row insertCol (omv r.1) (omv r.2.1) (omv r.2.2))
  | .error e => .error e

/-- One iteration of the subject loop (app.py lines 77-98):
`marks_col = 4 + subject_num * 7 + 2`, `insert_col = marks_col + 1`;
`insert_cols` puts three empty columns *before* `insert_col` in every row,
then the header cells and the per-row derived cells are written. -/
def enrichSubject (table : List (List Value)) (subjectNum : Nat) : Except PyExn (List (List Value)) :=
  let marksCol := 4 + subjectNum * 7 + 2
  let insertCol := marksCol + 1
  let lbl := subjectNum + 1
  match table.map (fun row => insertThree row insertCol) with
  | [] => .ok []
  | hdr :: rows =>
    let hdr := setThree hdr insertCol (.pyStr s!"Internal {lbl}") (.pyStr s!"External {lbl}") (.pyStr s!"Total {lbl}")
    match mapExcept (processRow marksCol insertCol) rows with
    | .ok rows2 => .ok (hdr :: rows2)
    | .error e => .error e

/-- app.py lines 41-105, `process_excel_file`: synthesize headers, assign
them to the DataFrame — pandas raises a `ValueError` when the header count
differs from the column count, which happens exactly for tables with fewer
than 3 columns — write/reload through the temporary workbook, and run the
subject loop. -/
def process_excel_file (df : List (List Value)) (totalColumns : Nat) : Except PyExn (List (List Value)) :=
  let headers := synthHeaders totalColumns
  if headers.length ≠ totalColumns then .error .valueError
  else
    let table := (headers.map Value.pyStr) :: df.map (fun r => r.map excelRoundtrip)
    foldExcept enrichSubject table (List.range (numSubjectsOf totalColumns).toNat)

/-- A table is rectangular with `c` columns. -/
def Rect (df : List (List Value)) (c : Nat) : Prop := ∀ r ∈ df, r.length = c

/-! ## Department Partitioner (`create_department_batches`, app.py lines 107-163) -/

/-- The fixed department-code table (app.py lines 117-123). -/
def department_codes : List (String × String) :=
  [("28M", "Data Science"), ("25F", "BBA"), ("25N", "BBAIB"),
   ("2AA", "BCom"), ("2AK", "BComPA"), ("26U", "Psychology"),
   ("22S", "Viscom"), ("21C", "Economics"), ("21G", "Tamil"),
   ("31B", "MSW"), ("21B", "Political Science"),
   ("31M", "M. Political Science")]

/-- A `(department name, batch year)` grouping key. -/
structure BatchKey where
  dept : String
  batch : String
deriving DecidableEq, Repr

/-- Python string slice `s[a:b]` (never raises; clamps at the ends). -/
def pySlice (s : String) (a b : Nat) : String :=
  String.mk ((s.data.drop a).take (b - a))

/-- Append `row` to the output table for key `k`, creating that table with
the shared header row on first use (app.py lines 141-149); insertion order
of keys is preserved, as for a Python dict. -/
def addRow (acc : List (BatchKey × List (List Value))) (k : BatchKey)
    (headers : List Value) (row : List Value) : List (BatchKey × List (List Value)) :=
  match acc with
  | [] => [(k, [headers, row])]
  | (k2, t) :: rest =>
    if k2 = k then (k2, t ++ [row]) :: rest
    else (k2, t) :: addRow rest k headers row

/-- One data row of the partitioning loop (app.py lines 130-149): skip the
row unless column 1 holds a string whose `[2:5]` slice is a known
department code; otherwise append it under `(department, register_no[:2])`. -/
def partitionStep (headers : List Value) (acc : List (BatchKey × List (List Value)))
    (row : List Value) : List (BatchKey × List (List Value)) :=
  match getCell1 row 1 with
  | .pyStr rn =>
    match department_codes.lookup (pySlice rn 2 5) with
    | some deptName => addRow acc ⟨deptName, pySlice rn 0 2⟩ headers row
    | none => acc
  | _ => acc

/-- app.py lines 107-163, `create_department_batches`: the header row is
row 1 of the enriched sheet; the remaining rows are grouped by the
`(department, batch year)` key derived from the Register No. -/
def create_department_batches (table : List (List Value)) : List (BatchKey × List (List Value)) :=
  match table with
  | [] => []
  | headers :: rows => rows.foldl (partitionStep headers) []

/-- The per-group file name (app.py line 156):
`f'{dept.replace(" ", "_")}_Batch_{batch_year}.xlsx'`. -/
def batchFileName (k : BatchKey) : String :=
  String.mk (k.dept.data.map (fun c => if c = ' ' then '_' else c)) ++ "_Batch_" ++ k.batch ++ ".xlsx"

/-! ## Shape of the Mark Splitter's results -/

/-- Every result of the string parser is all-`None`, total-only, or a full
split with `total = internal + external`. -/
theorem parseMarkString_shape (s : String) :
    parseMarkString s = (none, none, none) ∨
    (∃ t, parseMarkString s = (none, none, some t)) ∨
    (∃ i e, parseMarkString s = (some i, some e, some (i + e))) := by
  simp only [parseMarkString]
  split
  · split
    · split
      · exact Or.inr (Or.inr ⟨_, _, rfl⟩)
      · exact Or.inl rfl
    · exact Or.inl rfl
  · split
    · exact Or.inr (Or.inl ⟨_, rfl⟩)
    · exact Or.inl rfl

/-- C10: whenever `process_marks` returns without raising, the result has
exactly one of three shapes: `(None, None, None)`; `(None, None, t)` with
`t` an integer; or `(i, e, t)` with `i`, `e`, `t` integers and
`t = i + e`.  Partially filled results never occur. -/
theorem c10_result_shapes (v : Value) (r : MarksResult) (h : process_marks v = .ok r) :
    r = (none, none, none) ∨
    (∃ t, r = (none, none, some t)) ∨
    (∃ i e, r = (some i, some e, some (i + e))) := by
  unfold process_marks at h
  split at h
  · cases h; exact Or.inl rfl
  · split at h
    · cases h; exact Or.inl rfl
    · cases h; exact Or.inr (Or.inl ⟨_, rfl⟩)
    · cases h; exact Or.inr (Or.inl ⟨_, rfl⟩)
    · cases h; exact Or.inr (Or.inl ⟨_, rfl⟩)
    · cases h
    · cases h
      exact parseMarkString_shape _

/-- Witness for C10 at the concrete input `"040+043"`. -/
theorem c10_result_shapes_witness :
    ((some 40, some 43, some 83) : MarksResult) = (none, none, none) ∨
    (∃ t, ((some 40, some 43, some 83) : MarksResult) = (none, none, some t)) ∨
    (∃ i e, ((some 40, some 43, some 83) : MarksResult) = (some i, some e, some (i + e))) :=
  c10_result_shapes (.pyStr "040+043") (some 40, some 43, some 83) rfl

/-- C5 (the code bug): `process_marks` applied to the float NaN raises a
`ValueError` — `int(marks)` at app.py line 23 sits outside the
`try` block — instead of degrading to the all-`None` sentinel promised by
the function's own docstring. -/
theorem c5_nan_raises : process_marks .pyNaN = .error .valueError := rfl

/-- Counterexample to C1 as stated: a composite with an empty part on
either side of `'+'` does *not* yield the sentinel — the empty part parses
as `0` via `lstrip('0') or '0'` — and a whitespace-only string yields
`(None, None, 0)`, not `(None, None, None)`. -/
theorem c1_counterexample :
    process_marks (.pyStr "12+") = .ok (some 12, some 0, some 12) ∧
    process_marks (.pyStr "+34") = .ok (some 0, some 34, some 34) ∧
    process_marks (.pyStr " ") = .ok (none, none, some 0) :=
  ⟨rfl, rfl, rfl⟩

/-! ## Malformed composites (claim C1) -/

/-- `dropWhile` cannot change the number of occurrences of an element that
fails the predicate. -/
theorem count_dropWhile_of_not (p : Char → Bool) (a : Char) (h : p a = false) :
    ∀ l : List Char, (l.dropWhile p).count a = l.count a := by
  intro l
  induction l with
  | nil => rfl
  | cons c t ih =>
    by_cases hc : p c
    · rw [List.dropWhile_cons_of_pos hc, ih, List.count_cons]
      have hca : ¬(c == a) = true := by
        intro hb
        rw [eq_of_beq hb, h] at hc
        exact Bool.noConfusion hc
      simp [hca]
    · rw [List.dropWhile_cons_of_neg hc]

/-- Stripping surrounding whitespace preserves the number of `'+'`s. -/
theorem pyStrip_count_plus (l : List Char) :
    (pyStrip l).count '+' = l.count '+' := by
  unfold pyStrip
  rw [List.count_reverse, count_dropWhile_of_not _ _ (by decide),
    List.count_reverse, count_dropWhile_of_not _ _ (by decide)]

/-- `split` produces one part more than there are separators. -/
theorem splitOnChar_length (sep : Char) (l : List Char) :
    (splitOnChar sep l).length = l.count sep + 1 := by
  induction l with
  | nil => rfl
  | cons c t ih =>
    unfold splitOnChar
    by_cases hc : c = sep
    · subst hc
      simp only [List.count_cons, beq_iff_eq, eq_self_iff_true, if_true, List.length_cons]
      omega
    · rw [if_neg hc]
      cases hsp : splitOnChar sep t with
      | nil => rw [hsp] at ih; simp at ih
      | cons p ps =>
        rw [hsp] at ih
        simp only [List.length_cons] at ih ⊢
        simp only [List.count_cons, beq_iff_eq, if_neg hc]
        omega

/-- A string containing at least two `'+'`s fails the two-way unpacking
and yields the sentinel. -/
theorem parseMarkString_multi_plus (s : String) (hs : 2 ≤ s.data.count '+') :
    parseMarkString s = (none, none, none) := by
  have hcount : (pyStrip s.data).count '+' = s.data.count '+' := pyStrip_count_plus _
  have hmem : '+' ∈ pyStrip s.data := by
    by_contra hmm
    have h0 : (pyStrip s.data).count '+' = 0 := List.count_eq_zero.mpr hmm
    rw [hcount] at h0
    omega
  have hlen : (splitOnChar '+' (pyStrip s.data)).length = (pyStrip s.data).count '+' + 1 :=
    splitOnChar_length _ _
  simp only [parseMarkString, if_pos hmem]
  rcases hsp : splitOnChar '+' (pyStrip s.data) with _ | ⟨x, _ | ⟨y, _ | ⟨z, zs⟩⟩⟩
  · rfl
  · rfl
  · rw [hsp] at hlen
    simp only [List.length_cons, List.length_nil] at hlen
    omega
  · rfl

/-- Membership survives stripping: a character of the stripped string was
in the original string. -/
theorem mem_pyStrip (a : Char) (l : List Char) (h : a ∈ pyStrip l) : a ∈ l := by
  unfold pyStrip at h
  rw [List.mem_reverse] at h
  have h2 := (List.dropWhile_sublist _).subset h
  rw [List.mem_reverse] at h2
  exact (List.dropWhile_sublist _).subset h2

/-- C1 as amended: the sentinel is returned for every string with more
than one `'+'`; for every composite splitting into exactly two parts of
which either part fails integer parsing after zero-stripping (e.g.
`"ab+cd"`); and for every `'+'`-free string whose zero-stripped content
fails integer parsing (e.g. `"abc"`).  But an empty part on either side
of `'+'` parses as `0` (`"12+"` gives `(12, 0, 12)`, `"+34"` gives
`(0, 34, 34)`), and a whitespace-only string parses as total `0`. -/
theorem c1_amended_marks :
    (∀ s : String, 2 ≤ s.data.count '+' → process_marks (.pyStr s) = .ok (none, none, none)) ∧
    (∀ (s : String) (a b : List Char), splitOnChar '+' (pyStrip s.data) = [a, b] →
      pyIntOfChars (lstrip0or0 a) = none ∨ pyIntOfChars (lstrip0or0 b) = none →
      process_marks (.pyStr s) = .ok (none, none, none)) ∧
    (∀ s : String, '+' ∉ s.data → pyIntOfChars (lstrip0or0 (pyStrip s.data)) = none →
      process_marks (.pyStr s) = .ok (none, none, none)) ∧
    process_marks (.pyStr "12+") = .ok (some 12, some 0, some 12) ∧
    process_marks (.pyStr "+34") = .ok (some 0, some 34, some 34) ∧
    process_marks (.pyStr " ") = .ok (none, none, some 0) := by
  refine ⟨?_, ?_, ?_, rfl, rfl, rfl⟩
  · intro s hs
    have hne : ¬(Value.pyStr s).isFalsy = true := by
      simp only [Value.isFalsy, beq_iff_eq]
      intro h
      subst h
      simp only [String.data] at hs
      revert hs
      decide
    unfold process_marks
    rw [if_neg hne]
    exact congrArg Except.ok (parseMarkString_multi_plus s hs)
  · intro s a b hsplit hfail
    unfold process_marks
    by_cases hf : (Value.pyStr s).isFalsy = true
    · rw [if_pos hf]
    · rw [if_neg hf]
      dsimp only
      have hmem : '+' ∈ pyStrip s.data := by
        by_contra hmm
        have h0 : (pyStrip s.data).count '+' = 0 := List.count_eq_zero.mpr hmm
        have hlen := splitOnChar_length '+' (pyStrip s.data)
        rw [hsplit, h0] at hlen
        simp at hlen
      simp only [parseMarkString, if_pos hmem, hsplit]
      rcases hfail with h | h
      · rw [h]
      · rw [h]
        cases pyIntOfChars (lstrip0or0 a) <;> rfl
  · intro s hplus hfail
    unfold process_marks
    by_cases hf : (Value.pyStr s).isFalsy = true
    · rw [if_pos hf]
    · rw [if_neg hf]
      dsimp only
      have hmem : '+' ∉ pyStrip s.data := fun hm => hplus (mem_pyStrip _ _ hm)
      simp only [parseMarkString, if_neg hmem, hfail]

/-- Witness for the three universally quantified parts of the amended C1,
at the concrete inputs `"1+2+3"`, `"ab+cd"` and `"abc"`. -/
theorem c1_amended_marks_witness :
    (2 ≤ "1+2+3".data.count '+' ∧ process_marks (.pyStr "1+2+3") = .ok (none, none, none)) ∧
    (splitOnChar '+' (pyStrip "ab+cd".data) = ["ab".data, "cd".data] ∧
      pyIntOfChars (lstrip0or0 "ab".data) = none ∧
      process_marks (.pyStr "ab+cd") = .ok (none, none, none)) ∧
    ('+' ∉ "abc".data ∧ pyIntOfChars (lstrip0or0 (pyStrip "abc".data)) = none ∧
      process_marks (.pyStr "abc") = .ok (none, none, none)) :=
  ⟨⟨by decide, c1_amended_marks.1 "1+2+3" (by decide)⟩,
   ⟨by decide, by decide,
    c1_amended_marks.2.1 "ab+cd" "ab".data "cd".data (by decide) (Or.inl (by decide))⟩,
   ⟨by decide, by decide, c1_amended_marks.2.2.1 "abc" (by decide) (by decide)⟩⟩

/-! ## Partitioning the two-row example table (claim C2) -/

/-- The shared header row of the C2 example tables. -/
def c2Header : List Value := [.pyStr "Register No", .pyStr "Name", .pyStr "College ID"]

/-- Counterexample to C2 as stated: for the rows with Register No
`"28M231001"` and `"25F231002"` the sliced department codes are
`register_no[2:5] = "M23"` and `"F23"`, neither of which is a key of
`department_codes`, so the partitioner drops both rows and produces *no*
output table at all — not the two tables the claim names. -/
theorem c2_counterexample :
    create_department_batches
      [c2Header,
       [.pyStr "28M231001", .pyStr "A", .pyStr "C1"],
       [.pyStr "25F231002", .pyStr "B", .pyStr "C2"]] = [] := rfl

/-- C2 as amended: with Register No values that carry the department code
at characters `[2,5)` — `"2828M1001"` (batch `"28"`, code `"28M"`) and
`"2525F1002"` (batch `"25"`, code `"25F"`) — partitioning produces exactly
the two output tables keyed `(Data Science, "28")` and `(BBA, "25")`,
named `Data_Science_Batch_28.xlsx` and `BBA_Batch_25.xlsx`, each holding
the shared header row plus exactly its one data row. -/
theorem c2_partition_two_batches :
    create_department_batches
      [c2Header,
       [.pyStr "2828M1001", .pyStr "A", .pyStr "C1"],
       [.pyStr "2525F1002", .pyStr "B", .pyStr "C2"]] =
      [(⟨"Data Science", "28"⟩,
        [c2Header, [.pyStr "2828M1001", .pyStr "A", .pyStr "C1"]]),
       (⟨"BBA", "25"⟩,
        [c2Header, [.pyStr "2525F1002", .pyStr "B", .pyStr "C2"]])] ∧
    batchFileName ⟨"Data Science", "28"⟩ = "Data_Science_Batch_28.xlsx" ∧
    batchFileName ⟨"BBA", "25"⟩ = "BBA_Batch_25.xlsx" :=
  ⟨rfl, rfl, rfl⟩

/-! ## Well-formed inputs (claim C6) -/

/-- A digit character is not whitespace. -/
theorem digit_not_ws (c : Char) (h : c.isDigit = true) : c.isWhitespace = false := by
  simp only [Char.isDigit, decide_eq_true_eq, Bool.and_eq_true] at h
  simp only [Char.isWhitespace]
  obtain ⟨h1, h2⟩ := h
  have hlo : 48 ≤ c.val := h1
  have hhi : c.val ≤ 57 := h2
  simp only [Bool.or_eq_false_iff, decide_eq_false_iff_not]
  refine ⟨⟨⟨?_, ?_⟩, ?_⟩, ?_⟩ <;> intro hc <;> subst hc <;> revert hlo hhi <;> decide

/-- A digit character is not `'+'`, `'-'` or `'_'`. -/
theorem digit_ne_special (c : Char) (h : c.isDigit = true) :
    c ≠ '+' ∧ c ≠ '-' ∧ c ≠ '_' := by
  refine ⟨?_, ?_, ?_⟩ <;> intro hc <;> subst hc <;> revert h <;> decide

/-- `dropWhile` is the identity when no element satisfies the predicate. -/
theorem dropWhile_of_all_neg (p : Char → Bool) :
    ∀ l : List Char, (∀ c ∈ l, p c = false) → l.dropWhile p = l := by
  intro l h
  induction l with
  | nil => rfl
  | cons c t ih =>
    rw [List.dropWhile_cons_of_neg (by simp [h c (List.mem_cons_self c t)])]

/-- Stripping is the identity on whitespace-free strings. -/
theorem pyStrip_of_no_ws (l : List Char) (h : ∀ c ∈ l, c.isWhitespace = false) :
    pyStrip l = l := by
  unfold pyStrip
  rw [dropWhile_of_all_neg _ l h, dropWhile_of_all_neg, List.reverse_reverse]
  intro c hc
  exact h c (List.mem_reverse.mp hc)

/-- `split` on a separator-free string returns the single part. -/
theorem splitOnChar_no_sep (sep : Char) :
    ∀ l : List Char, sep ∉ l → splitOnChar sep l = [l] := by
  intro l h
  induction l with
  | nil => rfl
  | cons c t ih =>
    unfold splitOnChar
    rw [if_neg (fun (hc : c = sep) => h (hc ▸ List.mem_cons_self c t)),
      ih (fun ht => h (List.mem_cons_of_mem c ht))]

/-- `split` never returns an empty list of parts. -/
theorem splitOnChar_ne_nil (sep : Char) (l : List Char) : splitOnChar sep l ≠ [] := by
  cases l with
  | nil => exact fun h => List.noConfusion h
  | cons c t =>
    unfold splitOnChar
    by_cases hc : c = sep
    · rw [if_pos hc]; exact fun h => List.noConfusion h
    · rw [if_neg hc]
      cases splitOnChar sep t <;> exact fun h => List.noConfusion h

/-- `split` at the unique separator occurrence returns the two parts. -/
theorem splitOnChar_single (sep : Char) :
    ∀ l1 l2 : List Char, sep ∉ l1 → sep ∉ l2 →
      splitOnChar sep (l1 ++ sep :: l2) = [l1, l2] := by
  intro l1 l2 h1 h2
  induction l1 with
  | nil =>
    simp only [List.nil_append]
    unfold splitOnChar
    rw [if_pos rfl, splitOnChar_no_sep sep l2 h2]
  | cons c t ih =>
    have hct : sep ∉ t := fun ht => h1 (List.mem_cons_of_mem c ht)
    have hcc : c ≠ sep := fun (hc : c = sep) => h1 (hc ▸ List.mem_cons_self c t)
    simp only [List.cons_append]
    unfold splitOnChar
    rw [if_neg hcc, ih hct]

/-- On an all-digit tail, Python `int` digit accumulation is the fold. -/
theorem digitsTail_digits :
    ∀ (l : List Char), (∀ c ∈ l, c.isDigit = true) → ∀ acc : Nat,
      digitsTail l acc = some (l.foldl (fun a c => a * 10 + (c.toNat - 48)) acc) := by
  intro l
  induction l with
  | nil => intro _ acc; rfl
  | cons c t ih =>
    intro h acc
    have hc : c.isDigit = true := h c (List.mem_cons_self c t)
    have ht : ∀ x ∈ t, x.isDigit = true := fun x hx => h x (List.mem_cons_of_mem c hx)
    unfold digitsTail
    rw [if_neg (digit_ne_special c hc).2.2, if_pos hc, ih ht]
    rfl

/-- On an all-digit nonempty string, Python `int` digit parsing returns
the numeric value. -/
theorem digitsStart_digits (l : List Char) (h : ∀ c ∈ l, c.isDigit = true) (hne : l ≠ []) :
    digitsStart l = some (digitsValL l) := by
  cases l with
  | nil => exact absurd rfl hne
  | cons c t =>
    have hc : c.isDigit = true := h c (List.mem_cons_self c t)
    have ht : ∀ x ∈ t, x.isDigit = true := fun x hx => h x (List.mem_cons_of_mem c hx)
    unfold digitsStart
    dsimp only
    rw [if_pos hc, digitsTail_digits t ht]
    simp [digitsValL]

/-- Python `int` on an all-digit nonempty string returns its value. -/
theorem pyIntOfChars_digits (l : List Char) (h : ∀ c ∈ l, c.isDigit = true) (hne : l ≠ []) :
    pyIntOfChars l = some ((digitsValL l : Int)) := by
  cases l with
  | nil => exact absurd rfl hne
  | cons c t =>
    have hc : c.isDigit = true := h c (List.mem_cons_self c t)
    unfold pyIntOfChars
    rw [pyStrip_of_no_ws (c :: t) (fun x hx => digit_not_ws x (h x hx))]
    dsimp only
    rw [if_neg (digit_ne_special c hc).1, if_neg (digit_ne_special c hc).2.1,
      digitsStart_digits (c :: t) h (fun hx => List.noConfusion hx)]
    rfl

/-- A fold over leading `'0'` characters keeps the accumulator at `0`. -/
theorem foldl_zeros :
    ∀ zs : List Char, (∀ c ∈ zs, c = '0') →
      zs.foldl (fun a c => a * 10 + (c.toNat - 48)) 0 = 0 := by
  intro zs
  induction zs with
  | nil => intro _; rfl
  | cons c t ih =>
    intro hz
    rw [List.foldl_cons, hz c (List.mem_cons_self c t)]
    exact ih (fun x hx => hz x (List.mem_cons_of_mem c hx))

/-- Dropping leading zeros does not change the numeric value. -/
theorem digitsValL_dropWhile_zeros (l : List Char) :
    digitsValL (l.dropWhile (fun c => c == '0')) = digitsValL l := by
  conv_rhs => rw [← List.takeWhile_append_dropWhile (p := fun c => c == '0') (l := l)]
  unfold digitsValL
  rw [List.foldl_append, foldl_zeros (l.takeWhile (fun c => c == '0'))]
  intro c hc
  have hp := List.mem_takeWhile_imp hc
  simpa using hp

/-- `int(s.lstrip('0') or '0')` on an all-digit string returns its value
(all-zero strings parse as `0`). -/
theorem pyInt_lstrip0_digits (l : List Char) (h : ∀ c ∈ l, c.isDigit = true) :
    pyIntOfChars (lstrip0or0 l) = some ((digitsValL l : Int)) := by
  unfold lstrip0or0
  cases ht : l.dropWhile (fun c => c == '0') with
  | nil =>
    have hv : digitsValL l = 0 := by
      rw [← digitsValL_dropWhile_zeros l, ht]; rfl
    rw [hv]
    simp only [List.isEmpty_nil, if_true]
    rfl
  | cons c t =>
    have hsub : ∀ x ∈ c :: t, x.isDigit = true := by
      intro x hx
      exact h x ((List.dropWhile_sublist (l := l) (p := fun c => c == '0')).subset (ht ▸ hx))
    rw [if_neg (by simp)]
    rw [pyIntOfChars_digits (c :: t) hsub (fun hx => List.noConfusion hx),
      ← digitsValL_dropWhile_zeros l, ht]

/-- A `'+'`-free whitespace-free character list for an all-digit string. -/
theorem digits_no_plus (l : List Char) (h : ∀ c ∈ l, c.isDigit = true) : '+' ∉ l :=
  fun hmem => (digit_ne_special '+' (h '+' hmem)).1 rfl

/-- C6: on well-formed inputs `process_marks` behaves as specified —
`"digits+digits"` yields `(internal, external, internal + external)` with
each component the numeric value of its zero-stripped substring; an
all-digit string yields `(None, None, value)`; and `None` and `""` yield
the all-`None` sentinel. -/
theorem c6_wellformed_split :
    (∀ a b : String, (∀ c ∈ a.data, c.isDigit = true) → (∀ c ∈ b.data, c.isDigit = true) →
      a ≠ "" → b ≠ "" →
      process_marks (.pyStr (a ++ "+" ++ b)) =
        .ok (some ((digitsVal a : Int)), some ((digitsVal b : Int)),
             some ((digitsVal a : Int) + (digitsVal b : Int)))) ∧
    (∀ s : String, (∀ c ∈ s.data, c.isDigit = true) → s ≠ "" →
      process_marks (.pyStr s) = .ok (none, none, some ((digitsVal s : Int)))) ∧
    process_marks .pyNone = .ok (none, none, none) ∧
    process_marks (.pyStr "") = .ok (none, none, none) := by
  refine ⟨?_, ?_, rfl, rfl⟩
  · intro a b ha hb hha hhb
    have hdata : (a ++ "+" ++ b).data = a.data ++ '+' :: b.data := by
      simp [String.data_append]
    have hne : (a ++ "+" ++ b) ≠ "" := by
      intro hq
      have hd := congrArg String.data hq
      rw [hdata] at hd
      simp at hd
    have hnws : ∀ c ∈ a.data ++ '+' :: b.data, c.isWhitespace = false := by
      intro c hc
      rcases List.mem_append.mp hc with h1 | h2
      · exact digit_not_ws c (ha c h1)
      · rcases List.mem_cons.mp h2 with h3 | h4
        · subst h3; decide
        · exact digit_not_ws c (hb c h4)
    unfold process_marks
    rw [if_neg (by simp [Value.isFalsy, hne])]
    dsimp only
    simp only [parseMarkString, hdata, pyStrip_of_no_ws _ hnws]
    rw [if_pos (List.mem_append.mpr (Or.inr (List.mem_cons_self '+' b.data))),
      splitOnChar_single '+' a.data b.data (digits_no_plus a.data ha) (digits_no_plus b.data hb)]
    dsimp only
    rw [pyInt_lstrip0_digits a.data ha, pyInt_lstrip0_digits b.data hb]
    rfl
  · intro s hs hne
    have hnws : ∀ c ∈ s.data, c.isWhitespace = false := fun c hc => digit_not_ws c (hs c hc)
    unfold process_marks
    rw [if_neg (by simp [Value.isFalsy, hne])]
    dsimp only
    simp only [parseMarkString, pyStrip_of_no_ws _ hnws]
    rw [if_neg (digits_no_plus s.data hs), pyInt_lstrip0_digits s.data hs]
    rfl

/-- Witness for C6 at the concrete inputs `"040" + "+" + "043"` (giving
`(40, 43, 83)`) and `"075"` (giving `(None, None, 75)`). -/
theorem c6_wellformed_split_witness :
    process_marks (.pyStr ("040" ++ "+" ++ "043")) =
      .ok (some ((digitsVal "040" : Int)), some ((digitsVal "043" : Int)),
           some ((digitsVal "040" : Int) + (digitsVal "043" : Int))) ∧
    process_marks (.pyStr "075") = .ok (none, none, some ((digitsVal "075" : Int))) :=
  ⟨c6_wellformed_split.1 "040" "043" (by decide) (by decide) (by decide) (by decide),
   c6_wellformed_split.2.1 "075" (by decide) (by decide)⟩

/-! ## Output tables start with the shared header (claim C8) -/

/-- `addRow` preserves "every output table starts with the header". -/
theorem addRow_head (hdr row : List Value) (k : BatchKey) :
    ∀ acc : List (BatchKey × List (List Value)),
      (∀ p ∈ acc, ∃ rs, p.2 = hdr :: rs) →
      ∀ p ∈ addRow acc k hdr row, ∃ rs, p.2 = hdr :: rs := by
  intro acc
  induction acc with
  | nil =>
    intro _ p hp
    unfold addRow at hp
    rcases List.mem_singleton.mp hp with rfl
    exact ⟨[row], rfl⟩
  | cons q rest ih =>
    intro hinv p hp
    obtain ⟨k2, t⟩ := q
    unfold addRow at hp
    by_cases hk : k2 = k
    · rw [if_pos hk] at hp
      rcases List.mem_cons.mp hp with rfl | hmem
      · obtain ⟨rs, hrs⟩ := hinv (k2, t) (List.mem_cons_self _ _)
        have hrs2 : t = hdr :: rs := hrs
        exact ⟨rs ++ [row], by rw [hrs2]; rfl⟩
      · exact hinv p (List.mem_cons_of_mem _ hmem)
    · rw [if_neg hk] at hp
      rcases List.mem_cons.mp hp with rfl | hmem
      · exact hinv (k2, t) (List.mem_cons_self _ _)
      · exact ih (fun q hq => hinv q (List.mem_cons_of_mem _ hq)) p hmem

/-- One partitioning step preserves the header invariant. -/
theorem partitionStep_head (hdr : List Value) (acc : List (BatchKey × List (List Value)))
    (row : List Value) (hinv : ∀ p ∈ acc, ∃ rs, p.2 = hdr :: rs) :
    ∀ p ∈ partitionStep hdr acc row, ∃ rs, p.2 = hdr :: rs := by
  unfold partitionStep
  split
  · split
    · exact addRow_head hdr row _ acc hinv
    · exact hinv
  · exact hinv

/-- The whole partitioning fold preserves the header invariant. -/
theorem foldl_partitionStep_head (hdr : List Value) :
    ∀ (rows : List (List Value)) (acc : List (BatchKey × List (List Value))),
      (∀ p ∈ acc, ∃ rs, p.2 = hdr :: rs) →
      ∀ p ∈ rows.foldl (partitionStep hdr) acc, ∃ rs, p.2 = hdr :: rs := by
  intro rows
  induction rows with
  | nil => intro acc h p hp; exact h p hp
  | cons r rs ih =>
    intro acc h
    rw [List.foldl_cons]
    exact ih _ (partitionStep_head hdr acc r h)

/-- C8: every output table produced by the partitioner carries, as its
first row, exactly the enriched table's header row. -/
theorem c8_header_roundtrip (hdr : List Value) (rows : List (List Value))
    (p : BatchKey × List (List Value))
    (hp : p ∈ create_department_batches (hdr :: rows)) :
    ∃ rs, p.2 = hdr :: rs := by
  unfold create_department_batches at hp
  exact foldl_partitionStep_head hdr rows []
    (fun q hq => absurd hq (List.not_mem_nil q)) p hp

/-- Witness for C8 at a concrete two-row table. -/
theorem c8_header_roundtrip_witness :
    ∃ rs, ((⟨"Data Science", "28"⟩, [c2Header, [Value.pyStr "2828M1001", Value.pyStr "A", Value.pyStr "C1"]]) :
      BatchKey × List (List Value)).2 = c2Header :: rs :=
  c8_header_roundtrip c2Header [[Value.pyStr "2828M1001", Value.pyStr "A", Value.pyStr "C1"]]
    _ (by decide)

/-! ## Bad register numbers are excluded (claim C9) -/

/-- A Register No cell value the partitioner must skip: not a string, or a
string shorter than 5 characters, or one whose `[2:5]` slice is not a key
of the department-code table. -/
def badRegister (v : Value) : Bool :=
  match v with
  | .pyStr s => decide (s.length < 5) || (department_codes.lookup (pySlice s 2 5)).isNone
  | _ => true

/-- A successful lookup in a table whose keys all have length 3 forces the
key to have length 3. -/
theorem lookup_keys_len :
    ∀ l : List (String × String), (∀ p ∈ l, p.1.length = 3) → ∀ s : String,
      (l.lookup s).isSome = true → s.length = 3 := by
  intro l
  induction l with
  | nil => intro _ s h; simp [List.lookup] at h
  | cons q rest ih =>
    intro hk s h
    obtain ⟨k, v⟩ := q
    unfold List.lookup at h
    cases hq : s == k with
    | true =>
      rw [beq_iff_eq.mp hq]
      exact hk (k, v) (List.mem_cons_self _ _)
    | false =>
      rw [hq] at h
      exact ih (fun p hp => hk p (List.mem_cons_of_mem _ hp)) s h

/-- The `[2:5]` slice of a string shorter than 5 characters has length at
most 2, so it can never be one of the 3-character department codes. -/
theorem short_slice_lookup_none (s : String) (hlen : s.length < 5) :
    department_codes.lookup (pySlice s 2 5) = none := by
  cases hq : department_codes.lookup (pySlice s 2 5) with
  | none => rfl
  | some d =>
    exfalso
    have h3 : (pySlice s 2 5).length = 3 :=
      lookup_keys_len department_codes (by decide) _ (by rw [hq]; rfl)
    have hsl : (pySlice s 2 5).length = min 3 (s.data.length - 2) := by
      show ((s.data.drop 2).take 3).length = _
      simp [Nat.min_comm]
    have hslen : s.data.length < 5 := hlen
    omega

/-- A bad Register No makes the partitioning step a no-op. -/
theorem partitionStep_bad (hdr : List Value) (acc : List (BatchKey × List (List Value)))
    (row : List Value) (h : badRegister (getCell1 row 1) = true) :
    partitionStep hdr acc row = acc := by
  unfold partitionStep
  cases hv : getCell1 row 1 with
  | pyStr s =>
    rw [hv] at h
    dsimp only [badRegister] at h
    show (match department_codes.lookup (pySlice s 2 5) with
          | some deptName => addRow acc ⟨deptName, pySlice s 0 2⟩ hdr row
          | none => acc) = acc
    cases hlk : department_codes.lookup (pySlice s 2 5) with
    | none => rfl
    | some d =>
      exfalso
      simp only [hlk, Option.isNone_some, Bool.or_false, decide_eq_true_eq] at h
      have hnone := short_slice_lookup_none s h
      rw [hlk] at hnone
      exact Option.noConfusion hnone
  | pyNone => rfl
  | pyBool b => rfl
  | pyInt n => rfl
  | pyFloat q => rfl
  | pyNaN => rfl

/-- C9: a data row whose Register No is not a string, or is a string
shorter than 5 characters, or has an unrecognized `[2:5]` department code,
contributes nothing: partitioning with the row gives exactly the same
output tables as partitioning without it (and, the embedding being total,
no error is raised). -/
theorem c9_bad_register_excluded (hdr r : List Value) (pre post : List (List Value))
    (h : badRegister (getCell1 r 1) = true) :
    create_department_batches (hdr :: (pre ++ r :: post)) =
      create_department_batches (hdr :: (pre ++ post)) := by
  show (pre ++ r :: post).foldl (partitionStep hdr) [] =
    (pre ++ post).foldl (partitionStep hdr) []
  rw [List.foldl_append, List.foldl_append, List.foldl_cons,
    partitionStep_bad hdr _ r h]

/-- Witness for C9: the length-2 Register No `"XX"` is skipped. -/
theorem c9_bad_register_excluded_witness :
    badRegister (getCell1 [Value.pyStr "XX"] 1) = true ∧
    create_department_batches
      [c2Header, [Value.pyStr "2828M1001", Value.pyStr "A", Value.pyStr "C1"], [Value.pyStr "XX"]] =
    create_department_batches
      [c2Header, [Value.pyStr "2828M1001", Value.pyStr "A", Value.pyStr "C1"]] :=
  ⟨by decide,
   c9_bad_register_excluded c2Header [Value.pyStr "XX"]
     [[Value.pyStr "2828M1001", Value.pyStr "A", Value.pyStr "C1"]] [] (by decide)⟩

/-! ## The enriched header layout (claims C3, C4, C7) -/

/-- One enriched subject block's headers: the three derived columns sit
between Marks and Result, where `insert_cols(marks_col + 1, 3)` puts them. -/
def enrichedBlockHeaders (i : Nat) : List String :=
  [s!"Subject Code {i}", s!"Subject Name {i}", s!"Marks {i}",
   s!"Internal {i}", s!"External {i}", s!"Total {i}", s!"Result {i}"]

/-- The full enriched header of a `3 + 4*k`-column input. -/
def enrichedHeader (k : Nat) : List String :=
  fixedHeaders ++ (List.range k).flatMap (fun j => enrichedBlockHeaders (j + 1))

/-- The header after the first `j` subject blocks (of `k`) have been
enriched: `j` enriched blocks followed by `k - j` raw blocks. -/
def midHeader (k j : Nat) : List Value :=
  ((fixedHeaders.map Value.pyStr)
    ++ ((List.range j).flatMap (fun i => enrichedBlockHeaders (i + 1))).map Value.pyStr)
  ++ (((List.range (k - j)).flatMap (fun i => subjectHeaders (j + i + 1))).map Value.pyStr)

/-- Generic list helper: `take` past an initial segment. -/
theorem take_append_len {α : Type} (l1 : List α) (l2 : List α) (i : Nat) :
    (l1 ++ l2).take (l1.length + i) = l1 ++ l2.take i := by
  induction l1 with
  | nil => simp
  | cons a t ih => simp [List.length_cons, Nat.succ_add, List.take_succ_cons, ih]

/-- Generic list helper: `drop` past an initial segment. -/
theorem drop_append_len {α : Type} (l1 : List α) (l2 : List α) (i : Nat) :
    (l1 ++ l2).drop (l1.length + i) = l2.drop i := by
  induction l1 with
  | nil => simp
  | cons a t ih => simp [List.length_cons, Nat.succ_add, List.drop_succ_cons, ih]

/-- Generic list helper: `set` past an initial segment. -/
theorem set_append_len {α : Type} (l1 : List α) (l2 : List α) (i : Nat) (v : α) :
    (l1 ++ l2).set (l1.length + i) v = l1 ++ l2.set i v := by
  induction l1 with
  | nil => simp
  | cons a t ih => simp [List.length_cons, Nat.succ_add, List.set_cons_succ, ih]

/-- In-range cell writes never pad. -/
theorem setCell1_small (row : List Value) (p : Nat) (v : Value) (h : p ≤ row.length) :
    setCell1 row p v = row.set (p - 1) v := by
  unfold setCell1
  rw [Nat.sub_eq_zero_of_le h, List.replicate_zero, List.append_nil]

/-- `insert_cols` commutes with an untouched head cell. -/
theorem insertThree_cons (w : Value) (rest : List Value) (p : Nat) (hp : 1 ≤ p) :
    insertThree (w :: rest) (p + 1) = w :: insertThree rest p := by
  unfold insertThree
  obtain ⟨q, rfl⟩ : ∃ q, p = q + 1 := ⟨p - 1, by omega⟩
  simp [List.take_succ_cons, List.drop_succ_cons]

/-- A cell write commutes with an untouched head cell. -/
theorem setCell1_cons (w : Value) (rest : List Value) (p : Nat) (v : Value) (hp : 1 ≤ p) :
    setCell1 (w :: rest) (p + 1) v = w :: setCell1 rest p v := by
  unfold setCell1
  have h1 : p + 1 - (w :: rest).length = p - rest.length := by simp
  rw [h1]
  obtain ⟨q, rfl⟩ : ∃ q, p = q + 1 := ⟨p - 1, by omega⟩
  simp [List.set_cons_succ]

/-- The three cell writes commute with an untouched head cell. -/
theorem setThree_cons (w : Value) (rest : List Value) (p : Nat) (a b c : Value) (hp : 1 ≤ p) :
    setThree (w :: rest) (p + 1) a b c = w :: setThree rest p a b c := by
  unfold setThree
  rw [setCell1_cons w rest p a hp,
    show p + 1 + 1 = (p + 1) + 1 from rfl,
    setCell1_cons w _ (p + 1) b (by omega),
    setCell1_cons w _ (p + 2) c (by omega)]

/-- Base case of the block surgery: inserting at column 4 of a row that
starts with a 4-cell block and writing the three inserted cells. -/
theorem block_base (suf : List Value) (a b c d x y z : Value) :
    setThree (insertThree ([a, b, c, d] ++ suf) 4) 4 x y z
      = [a, b, c, x, y, z, d] ++ suf := by
  have h1 : insertThree ([a, b, c, d] ++ suf) 4
      = a :: b :: c :: Value.pyNone :: Value.pyNone :: Value.pyNone :: d :: suf := rfl
  rw [h1]
  unfold setThree
  rw [setCell1_small _ 4 _ (by simp),
    setCell1_small _ 5 _ (by simp),
    setCell1_small _ 6 _ (by simp)]
  rfl

/-- The block surgery: inserting three columns at the 4th position of a
4-cell block and writing them replaces the block `[a,b,c,d]` by
`[a,b,c,x,y,z,d]`, leaving everything else alone. -/
theorem setThree_insertThree_block :
    ∀ (pre suf : List Value) (a b c d x y z : Value) (p : Nat), p = pre.length + 4 →
      setThree (insertThree (pre ++ ([a, b, c, d] ++ suf)) p) p x y z
        = pre ++ ([a, b, c, x, y, z, d] ++ suf) := by
  intro pre
  induction pre with
  | nil =>
    intro suf a b c d x y z p hp
    subst hp
    exact block_base suf a b c d x y z
  | cons w t ih =>
    intro suf a b c d x y z p hp
    subst hp
    have hlen : (w :: t).length + 4 = (t.length + 4) + 1 := by simp
    rw [hlen, List.cons_append, insertThree_cons w _ _ (by omega),
      setThree_cons w _ _ _ _ _ (by omega), ih suf a b c d x y z _ rfl]
    rfl

/-- An enriched block has 7 headers. -/
theorem enrichedBlockHeaders_length (i : Nat) : (enrichedBlockHeaders i).length = 7 := rfl

/-- A raw block has 4 headers. -/
theorem subjectHeaders_length (i : Nat) : (subjectHeaders i).length = 4 := rfl

/-- `j` enriched blocks span `7*j` headers. -/
theorem enriched_flat_length (j : Nat) :
    ((List.range j).flatMap (fun i => enrichedBlockHeaders (i + 1))).length = 7 * j := by
  induction j with
  | zero => rfl
  | succ n ih =>
    rw [List.range_succ, List.flatMap_append, List.length_append, ih,
      List.flatMap_singleton, enrichedBlockHeaders_length]
    omega

/-- `j` raw blocks span `4*j` headers. -/
theorem raw_flat_length (j : Nat) :
    ((List.range j).flatMap (fun i => subjectHeaders (i + 1))).length = 4 * j := by
  induction j with
  | zero => rfl
  | succ n ih =>
    rw [List.range_succ, List.flatMap_append, List.length_append, ih,
      List.flatMap_singleton, subjectHeaders_length]
    omega

/-- The partially enriched header's prefix has length `3 + 7*j`. -/
theorem midHeader_prefix_length (j : Nat) :
    ((fixedHeaders.map Value.pyStr)
      ++ ((List.range j).flatMap (fun i => enrichedBlockHeaders (i + 1))).map Value.pyStr).length
      = 3 + 7 * j := by
  rw [List.length_append, List.length_map, List.length_map, enriched_flat_length]
  rfl

/-- One pass of the subject loop on the partially enriched header turns
the next raw block into an enriched block. -/
theorem midHeader_step (k j : Nat) (hj : j < k) :
    setThree (insertThree (midHeader k j) (4 + j * 7 + 2 + 1)) (4 + j * 7 + 2 + 1)
        (.pyStr s!"Internal {j + 1}") (.pyStr s!"External {j + 1}") (.pyStr s!"Total {j + 1}")
      = midHeader k (j + 1) := by
  obtain ⟨m, hm⟩ : ∃ m, k - j = m + 1 := ⟨k - j - 1, by omega⟩
  have hm2 : k - (j + 1) = m := by omega
  have hfun : (fun i => subjectHeaders (j + Nat.succ i + 1))
      = (fun i : Nat => subjectHeaders ((j + 1) + i + 1)) := by
    funext i
    congr 1
    omega
  have hsuf : (List.range (k - j)).flatMap (fun i => subjectHeaders (j + i + 1))
      = subjectHeaders (j + 1) ++ (List.range m).flatMap (fun i => subjectHeaders ((j + 1) + i + 1)) := by
    rw [hm, List.range_succ_eq_map, List.flatMap_cons, List.flatMap_map]
    rw [show j + 0 + 1 = j + 1 from by omega, hfun]
  have hp : 4 + j * 7 + 2 + 1 =
      ((fixedHeaders.map Value.pyStr)
        ++ ((List.range j).flatMap (fun i => enrichedBlockHeaders (i + 1))).map Value.pyStr).length + 4 := by
    rw [midHeader_prefix_length]
    omega
  unfold midHeader
  rw [hsuf, List.map_append, hm2]
  rw [show (subjectHeaders (j + 1)).map Value.pyStr =
        [Value.pyStr s!"Subject Code {j + 1}", Value.pyStr s!"Subject Name {j + 1}",
         Value.pyStr s!"Marks {j + 1}", Value.pyStr s!"Result {j + 1}"] from rfl]
  rw [setThree_insertThree_block _ _ _ _ _ _ _ _ _ _ hp]
  rw [List.range_succ, List.flatMap_append, List.flatMap_singleton, List.map_append]
  simp only [List.append_assoc]
  rfl

/-- `process_marks` raises only on the float NaN. -/
theorem process_marks_no_nan (v : Value) (h : v ≠ .pyNaN) :
    ∃ r, process_marks v = .ok r := by
  unfold process_marks
  split
  · exact ⟨_, rfl⟩
  · cases v with
    | pyNaN => exact absurd rfl h
    | pyNone => exact ⟨_, rfl⟩
    | pyBool b => exact ⟨_, rfl⟩
    | pyInt n => exact ⟨_, rfl⟩
    | pyFloat q => exact ⟨_, rfl⟩
    | pyStr s => exact ⟨_, rfl⟩

/-- Reading a cell of a NaN-free row never yields NaN. -/
theorem getCell1_not_nan (row : List Value) (p : Nat) (h : Value.pyNaN ∉ row) :
    getCell1 row p ≠ Value.pyNaN := by
  unfold getCell1
  rw [List.getD_eq_getElem?_getD]
  cases hg : row[p - 1]? with
  | none => intro hc; exact Value.noConfusion hc
  | some x =>
    intro hc
    exact h (hc ▸ List.getElem?_mem hg)

/-- An in-range cell write preserves the row length. -/
theorem setCell1_length (row : List Value) (p : Nat) (v : Value) (h : p ≤ row.length) :
    (setCell1 row p v).length = row.length := by
  rw [setCell1_small row p v h, List.length_set]

/-- An in-range write of a non-NaN value preserves NaN-freedom. -/
theorem setCell1_not_nan (row : List Value) (p : Nat) (v : Value) (hv : v ≠ .pyNaN)
    (h : Value.pyNaN ∉ row) (hp : p ≤ row.length) : Value.pyNaN ∉ setCell1 row p v := by
  rw [setCell1_small row p v hp]
  intro hmem
  rcases List.mem_or_eq_of_mem_set hmem with h1 | h2
  · exact h h1
  · exact hv h2.symm

/-- `insert_cols` adds exactly 3 cells when the position is in range. -/
theorem insertThree_length (row : List Value) (p : Nat) (h : p - 1 ≤ row.length) :
    (insertThree row p).length = row.length + 3 := by
  unfold insertThree
  simp only [List.length_append, List.length_take, List.length_drop, List.length_cons,
    List.length_nil]
  omega

/-- `insert_cols` inserts only empty cells, preserving NaN-freedom. -/
theorem insertThree_not_nan (row : List Value) (p : Nat) (h : Value.pyNaN ∉ row) :
    Value.pyNaN ∉ insertThree row p := by
  unfold insertThree
  intro hmem
  rcases List.mem_append.mp hmem with h1 | h2
  · rcases List.mem_append.mp h1 with h3 | h4
    · exact h (List.mem_of_mem_take h3)
    · exact absurd h4 (by decide)
  · exact h (List.mem_of_mem_drop h2)

/-- The rendered Mark Splitter components are never NaN. -/
theorem omv_not_nan (o : Option Int) : omv o ≠ Value.pyNaN := by
  cases o <;> exact fun h => Value.noConfusion h

/-- The three derived-cell writes preserve length and NaN-freedom. -/
theorem setThree_length_not_nan (row : List Value) (p : Nat) (a b c : Value)
    (ha : a ≠ .pyNaN) (hb : b ≠ .pyNaN) (hc : c ≠ .pyNaN)
    (h : Value.pyNaN ∉ row) (_hq1 : 1 ≤ p) (hq2 : p + 2 ≤ row.length) :
    (setThree row p a b c).length = row.length ∧ Value.pyNaN ∉ setThree row p a b c := by
  unfold setThree
  have l1 : (setCell1 row p a).length = row.length := setCell1_length row p a (by omega)
  have n1 : Value.pyNaN ∉ setCell1 row p a := setCell1_not_nan row p a ha h (by omega)
  have l2 : (setCell1 (setCell1 row p a) (p + 1) b).length = row.length := by
    rw [setCell1_length _ (p + 1) b (by omega), l1]
  have n2 : Value.pyNaN ∉ setCell1 (setCell1 row p a) (p + 1) b :=
    setCell1_not_nan _ (p + 1) b hb n1 (by omega)
  refine ⟨?_, setCell1_not_nan _ (p + 2) c hc n2 (by omega)⟩
  rw [setCell1_length _ (p + 2) c (by omega), l2]

/-- One data row of the subject loop succeeds on a NaN-free row of
sufficient width, preserving length and NaN-freedom. -/
theorem processRow_ok (marksCol insertCol : Nat) (row : List Value)
    (hN : Value.pyNaN ∉ row) (h1 : 1 ≤ insertCol) (h2 : insertCol + 2 ≤ row.length) :
    ∃ row2, processRow marksCol insertCol row = .ok row2 ∧
      row2.length = row.length ∧ Value.pyNaN ∉ row2 := by
  obtain ⟨r, hr⟩ := process_marks_no_nan (getCell1 row marksCol) (getCell1_not_nan row marksCol hN)
  obtain ⟨hl, hn⟩ := setThree_length_not_nan row insertCol (omv r.1) (omv r.2.1) (omv r.2.2)
    (omv_not_nan r.1) (omv_not_nan r.2.1) (omv_not_nan r.2.2) hN h1 h2
  refine ⟨_, ?_, hl, hn⟩
  unfold processRow
  rw [hr]

/-- Sequential row processing succeeds when each row does, and pointwise
properties carry over. -/
theorem mapExcept_ok (f : List Value → Except PyExn (List Value)) (P : List Value → Prop) :
    ∀ rows : List (List Value), (∀ r ∈ rows, ∃ r2, f r = .ok r2 ∧ P r2) →
      ∃ rows2, mapExcept f rows = .ok rows2 ∧ ∀ r2 ∈ rows2, P r2 := by
  intro rows
  induction rows with
  | nil =>
    intro _
    exact ⟨[], rfl, fun r hr => absurd hr (List.not_mem_nil r)⟩
  | cons r rs ih =>
    intro h
    obtain ⟨r2, hr2, hp⟩ := h r (List.mem_cons_self _ _)
    obtain ⟨rs2, hrs2, hps⟩ := ih (fun x hx => h x (List.mem_cons_of_mem _ hx))
    refine ⟨r2 :: rs2, ?_, ?_⟩
    · unfold mapExcept
      rw [hr2, hrs2]
    · intro x hx
      rcases List.mem_cons.mp hx with rfl | hm
      · exact hp
      · exact hps x hm

/-- The invariant maintained by the subject loop on a `3 + 4*k`-column
table: after `j` passes the header is `midHeader k j` and every data row
is NaN-free with `3 + 4*k + 3*j` cells. -/
def GoodTable (k j : Nat) (t : List (List Value)) : Prop :=
  ∃ rows, t = midHeader k j :: rows ∧
    ∀ r ∈ rows, r.length = 3 + 4 * k + 3 * j ∧ Value.pyNaN ∉ r

/-- One subject-loop pass preserves the invariant, stepping `j` to `j+1`. -/
theorem enrichSubject_good (k j : Nat) (hj : j < k) (t : List (List Value))
    (hg : GoodTable k j t) :
    ∃ t2, enrichSubject t j = .ok t2 ∧ GoodTable k (j + 1) t2 := by
  obtain ⟨rows, rfl, hrows⟩ := hg
  have hins : ∀ r2 ∈ rows.map (fun row => insertThree row (4 + j * 7 + 2 + 1)), ∃ r3,
      processRow (4 + j * 7 + 2) (4 + j * 7 + 2 + 1) r2 = .ok r3 ∧
      (r3.length = 3 + 4 * k + 3 * (j + 1) ∧ Value.pyNaN ∉ r3) := by
    intro r2 hr2
    obtain ⟨r, hr, rfl⟩ := List.mem_map.mp hr2
    obtain ⟨hlen, hnan⟩ := hrows r hr
    have hlen2 : (insertThree r (4 + j * 7 + 2 + 1)).length = r.length + 3 :=
      insertThree_length r _ (by omega)
    obtain ⟨r3, h1, h2, h3⟩ := processRow_ok (4 + j * 7 + 2) (4 + j * 7 + 2 + 1)
      (insertThree r (4 + j * 7 + 2 + 1)) (insertThree_not_nan r _ hnan) (by omega) (by omega)
    exact ⟨r3, h1, by omega, h3⟩
  obtain ⟨rows2, hmap, hprop⟩ := mapExcept_ok _ _ _ hins
  refine ⟨midHeader k (j + 1) :: rows2, ?_, rows2, rfl, hprop⟩
  unfold enrichSubject
  dsimp only
  rw [List.map_cons]
  dsimp only
  rw [hmap, midHeader_step k j hj]

/-- The whole subject loop keeps the invariant from `j` to `k`. -/
theorem foldExcept_good (k : Nat) :
    ∀ (m j : Nat), j + m = k → ∀ t, GoodTable k j t →
      ∃ t2, foldExcept enrichSubject t (List.range' j m) = .ok t2 ∧ GoodTable k k t2 := by
  intro m
  induction m with
  | zero =>
    intro j hj t hg
    obtain rfl : j = k := by omega
    exact ⟨t, rfl, hg⟩
  | succ n ih =>
    intro j hj t hg
    obtain ⟨t2, ht2, hg2⟩ := enrichSubject_good k j (by omega) t hg
    rw [List.range'_succ]
    unfold foldExcept
    rw [ht2]
    exact ih (j + 1) (by omega) t2 hg2

/-- `(3 + 4*k - 3) // 4 = k` for the exact subject-block column count. -/
theorem numSubjectsOf_eq (k : Nat) : numSubjectsOf (3 + 4 * k) = (k : Int) := by
  unfold numSubjectsOf
  have h : ((3 + 4 * k : Nat) : Int) - 3 = 4 * (k : Int) := by push_cast; ring
  rw [h]
  exact Int.mul_fdiv_cancel_left _ (by norm_num)

/-- On a `3 + 4*k`-column table the synthesized headers are the three
fixed headers plus `k` raw subject blocks, with no placeholders. -/
theorem synthHeaders_eq (k : Nat) :
    synthHeaders (3 + 4 * k)
      = fixedHeaders ++ (List.range k).flatMap (fun j => subjectHeaders (j + 1)) := by
  have hlen : (fixedHeaders ++ (List.range k).flatMap (fun j => subjectHeaders (j + 1))).length
      = 3 + 4 * k := by
    rw [List.length_append, raw_flat_length]
    rfl
  simp only [synthHeaders, numSubjectsOf_eq, Int.toNat_ofNat, hlen]
  rw [if_neg (by omega)]

/-- The excel round trip never produces a NaN cell. -/
theorem roundtrip_not_nan (r : List Value) : Value.pyNaN ∉ r.map excelRoundtrip := by
  intro hmem
  obtain ⟨a, _, ha⟩ := List.mem_map.mp hmem
  cases a <;> simp [excelRoundtrip] at ha

/-- Before any subject pass the synthesized header is `midHeader k 0`. -/
theorem midHeader_zero (k : Nat) :
    (synthHeaders (3 + 4 * k)).map Value.pyStr = midHeader k 0 := by
  rw [synthHeaders_eq]
  unfold midHeader
  simp [List.map_append, Nat.zero_add]

/-- After all `k` subject passes the header is the full enriched header. -/
theorem midHeader_last (k : Nat) :
    midHeader k k = (enrichedHeader k).map Value.pyStr := by
  unfold midHeader enrichedHeader
  rw [Nat.sub_self]
  simp [List.map_append]

/-- The Table Enricher on a rectangular `3 + 4*k`-column table: it
succeeds, its header is `midHeader k k`, and every data row has
`3 + 7*k` cells. -/
theorem process_excel_good (df : List (List Value)) (k : Nat) (hrect : Rect df (3 + 4 * k)) :
    ∃ rows2, process_excel_file df (3 + 4 * k) = .ok (midHeader k k :: rows2) ∧
      ∀ r ∈ rows2, r.length = 3 + 7 * k := by
  have hlen : (synthHeaders (3 + 4 * k)).length = 3 + 4 * k := by
    rw [synthHeaders_eq, List.length_append, raw_flat_length]
    rfl
  have hgood : GoodTable k 0 ((synthHeaders (3 + 4 * k)).map Value.pyStr
      :: df.map (fun r => r.map excelRoundtrip)) := by
    refine ⟨_, by rw [midHeader_zero], ?_⟩
    intro r hr
    obtain ⟨r0, hr0, rfl⟩ := List.mem_map.mp hr
    refine ⟨?_, roundtrip_not_nan r0⟩
    rw [List.length_map, hrect r0 hr0]
    omega
  obtain ⟨t2, ht2, hg2⟩ := foldExcept_good k k 0 (by omega) _ hgood
  obtain ⟨rows2, rfl, hrows2⟩ := hg2
  refine ⟨rows2, ?_, fun r hr => by have := (hrows2 r hr).1; omega⟩
  unfold process_excel_file
  dsimp only
  rw [if_neg (fun h => h hlen), numSubjectsOf_eq, Int.toNat_ofNat, List.range_eq_range']
  exact ht2

/-- Extracting the `j`-th 7-header block from a concatenation of 7-header
blocks. -/
theorem flatMap_blocks_extract (f : Nat → List String) (hf : ∀ i, (f i).length = 7) :
    ∀ (m s j : Nat), j < m →
      (((List.range' s m).flatMap f).drop (7 * j)).take 7 = f (s + j) := by
  intro m
  induction m with
  | zero => intro s j hj; exact absurd hj (Nat.not_lt_zero j)
  | succ n ih =>
    intro s j hj
    rw [List.range'_succ, List.flatMap_cons]
    cases j with
    | zero =>
      rw [Nat.mul_zero, List.drop_zero, ← hf s, List.take_left]
      congr 1
    | succ i =>
      have h7 : 7 * (i + 1) = (f s).length + 7 * i := by rw [hf s]; ring
      rw [h7, drop_append_len, ih (s + 1) i (by omega)]
      congr 1
      omega

/-- The 7 headers of the `j`-th block (0-based) of the enriched header. -/
theorem enrichedHeader_block (k j : Nat) (hj : j < k) :
    ((enrichedHeader k).drop (3 + 7 * j)).take 7 = enrichedBlockHeaders (j + 1) := by
  unfold enrichedHeader
  rw [show (3 : Nat) + 7 * j = fixedHeaders.length + 7 * j from rfl, drop_append_len,
    List.range_eq_range',
    flatMap_blocks_extract (fun i => enrichedBlockHeaders (i + 1)) (fun i => rfl) k 0 j hj]
  rw [Nat.zero_add]

/-- C7: enriching a rectangular table with exactly `3 + 4*k` columns
succeeds and produces a table with exactly `3 + 7*k` columns (header and
every data row), whose header consists of the three fixed headers followed
by the subject blocks labelled `1, …, k` in increasing left-to-right order
(block `j` of the header, 0-based, carries label `j + 1`). -/
theorem c7_enrich_columns (df : List (List Value)) (k : Nat) (hrect : Rect df (3 + 4 * k)) :
    ∃ rows2, process_excel_file df (3 + 4 * k) = .ok (((enrichedHeader k).map Value.pyStr) :: rows2) ∧
      ((enrichedHeader k).map Value.pyStr).length = 3 + 7 * k ∧
      (∀ j, j < k → (((enrichedHeader k).map Value.pyStr).drop (3 + 7 * j)).take 7
          = (enrichedBlockHeaders (j + 1)).map Value.pyStr) ∧
      ∀ r ∈ rows2, r.length = 3 + 7 * k := by
  obtain ⟨rows2, hok, hrows⟩ := process_excel_good df k hrect
  rw [midHeader_last] at hok
  refine ⟨rows2, hok, ?_, ?_, hrows⟩
  · rw [List.length_map]
    unfold enrichedHeader
    rw [List.length_append, enriched_flat_length]
    rfl
  · intro j hj
    rw [← List.map_drop, ← List.map_take, enrichedHeader_block k j hj]

/-- Witness for C7 at the 3-column table (`k = 0`). -/
theorem c7_enrich_columns_witness :
    Rect [[Value.pyStr "a", Value.pyStr "b", Value.pyStr "c"]] (3 + 4 * 0) ∧
    ∃ rows2, process_excel_file [[Value.pyStr "a", Value.pyStr "b", Value.pyStr "c"]] (3 + 4 * 0)
        = .ok (((enrichedHeader 0).map Value.pyStr) :: rows2) ∧
      ((enrichedHeader 0).map Value.pyStr).length = 3 + 7 * 0 ∧
      (∀ j, j < 0 → (((enrichedHeader 0).map Value.pyStr).drop (3 + 7 * j)).take 7
          = (enrichedBlockHeaders (j + 1)).map Value.pyStr) ∧
      ∀ r ∈ rows2, r.length = 3 + 7 * 0 :=
  ⟨by unfold Rect; decide, c7_enrich_columns [[Value.pyStr "a", Value.pyStr "b", Value.pyStr "c"]] 0 (by unfold Rect; decide)⟩

/-! ## Placement of the derived columns (claim C3) -/

/-- The raw one-subject table used to exhibit the actual column layout. -/
def dfC3 : List (List Value) :=
  [[.pyStr "r1", .pyStr "nm", .pyStr "cid", .pyStr "sc", .pyStr "sn", .pyStr "040+043", .pyStr "P"]]

/-- The header the code actually produces for `dfC3`: the derived columns
sit between Marks and Result. -/
def hdrC3 : List Value :=
  [.pyStr "Register No", .pyStr "Name", .pyStr "College ID",
   .pyStr "Subject Code 1", .pyStr "Subject Name 1", .pyStr "Marks 1",
   .pyStr "Internal 1", .pyStr "External 1", .pyStr "Total 1", .pyStr "Result 1"]

/-- The data row the code actually produces for `dfC3`. -/
def rowC3 : List Value :=
  [.pyStr "r1", .pyStr "nm", .pyStr "cid", .pyStr "sc", .pyStr "sn", .pyStr "040+043",
   .pyInt 40, .pyInt 43, .pyInt 83, .pyStr "P"]

/-- Counterexample to C3 as stated: `insert_cols(marks_col + 1, 3)`
inserts the three derived columns *before* the Result column, so the
enriched block reads Code, Name, Marks, Internal, External, Total, Result
— not Code, Name, Marks, Result, Internal, External, Total as claimed. -/
theorem c3_counterexample :
    process_excel_file dfC3 7 = .ok [hdrC3, rowC3] ∧
    hdrC3 ≠ [.pyStr "Register No", .pyStr "Name", .pyStr "College ID",
             .pyStr "Subject Code 1", .pyStr "Subject Name 1", .pyStr "Marks 1",
             .pyStr "Result 1", .pyStr "Internal 1", .pyStr "External 1", .pyStr "Total 1"] :=
  ⟨rfl, by decide⟩

/-- C3 as amended: the three derived columns `Internal i, External i,
Total i` are inserted immediately after the Marks column and immediately
before the Result column, so each enriched subject block reads
Subject Code, Subject Name, Marks, Internal, External, Total, Result. -/
theorem c3_block_layout (df : List (List Value)) (k : Nat) (hdr : List Value)
    (rows : List (List Value)) (hrect : Rect df (3 + 4 * k))
    (he : process_excel_file df (3 + 4 * k) = .ok (hdr :: rows))
    (j : Nat) (hj : j < k) :
    (hdr.drop (3 + 7 * j)).take 7 = (enrichedBlockHeaders (j + 1)).map Value.pyStr := by
  obtain ⟨rows2, hok, _⟩ := process_excel_good df k hrect
  rw [midHeader_last] at hok
  rw [hok] at he
  injection he with he2
  injection he2 with hh hrest
  rw [← hh, ← List.map_drop, ← List.map_take, enrichedHeader_block k j hj]

/-- Witness for C3 (amended) at the concrete table `dfC3`. -/
theorem c3_block_layout_witness :
    Rect dfC3 (3 + 4 * 1) ∧
    (hdrC3.drop (3 + 7 * 0)).take 7 = (enrichedBlockHeaders (0 + 1)).map Value.pyStr :=
  ⟨by unfold Rect; decide, c3_block_layout dfC3 1 hdrC3 [rowC3] (by unfold Rect; decide) rfl 0 (by decide)⟩

/-! ## Undersized tables (claim C4) -/

/-- Counterexample to C4 as stated: on a 2-column table the Python floor
division gives `num_subjects = -1`, not `0`, and the pipeline raises a
header/column length-mismatch error instead of passing the table
through. -/
theorem c4_counterexample :
    numSubjectsOf 2 ≠ 0 ∧
    process_excel_file [[Value.pyStr "a", Value.pyStr "b"]] 2 = .error .valueError :=
  ⟨by decide, rfl⟩

/-- C4 as amended: for every raw table with fewer than 3 columns,
`num_subjects = (cols - 3) // 4` is `-1` (Python floor division of a
negative), and assigning the 3 synthesized fixed headers to the narrower
DataFrame raises a length-mismatch `ValueError`; the table is never
returned. -/
theorem c4_undersized_raises (df : List (List Value)) (c : Nat) (hc : c < 3) :
    numSubjectsOf c = -1 ∧ process_excel_file df c = .error .valueError := by
  have hns : numSubjectsOf c = -1 := by
    interval_cases c <;> decide
  refine ⟨hns, ?_⟩
  have hsynth : synthHeaders c = fixedHeaders := by
    simp only [synthHeaders, hns]
    rw [if_neg (by simp [fixedHeaders]; omega)]
    simp
  unfold process_excel_file
  dsimp only
  rw [hsynth, if_pos (by simp [fixedHeaders]; omega)]

/-- Witness for C4 at a concrete 2-column table. -/
theorem c4_undersized_raises_witness :
    (2 : Nat) < 3 ∧ numSubjectsOf 2 = -1 ∧
    process_excel_file [[Value.pyStr "x", Value.pyStr "y"]] 2 = .error .valueError :=
  ⟨by decide, c4_undersized_raises [[Value.pyStr "x", Value.pyStr "y"]] 2 (by decide)⟩
